import Mathlib

/-!
Verification of the metrics and prioritization engine of the
sprint-portfolio-analytics dashboard (src/app.py).

The repository ships only `src/app.py`; the engine functions it imports from
`utils.data_processing`, `utils.metrics`, `utils.prioritization` and
`utils.predictive_models` are not present in the repository, so those
functions are modelled from the specification (each such definition carries a
doc comment beginning `Modelled from the spec:`).  The inline computations of
`src/app.py` itself (the Executive-Summary team heatmap, the velocity-change,
predictability and improvement metrics) are embedded directly from the source.

Numbers are embedded as rationals (`ℚ`).  Where the Python code relies on
numpy/pandas float semantics in which degenerate statistics produce a
non-finite value (NaN or ±inf) instead of raising, the embedding uses
`Option ℚ`: `some q` is a finite value, `none` is a non-finite result.
-/

/-- Arithmetic mean of a list of rationals (sum divided by length;
Lean's `x / 0 = 0` convention applies only where a guard in the modelled
code already rules the empty case out). -/
def meanQ (l : List ℚ) : ℚ := l.sum / l.length

/-- Clamp a rational into the closed interval `[lo, hi]`. -/
def clampQ (lo hi x : ℚ) : ℚ := min hi (max lo x)

/-- Population variance of a list of rationals. -/
def varianceQ (l : List ℚ) : ℚ := meanQ (l.map (fun x => (x - meanQ l) ^ 2))

/-- Computable rational approximation of the square root
(integer square root of `num·den`, divided by `den`).  The claims settled
below never depend on the numeric value of a square root — it only ever
appears inside a clamp or on a side whose finiteness alone matters — so the
approximation is immaterial. -/
def ratSqrt (q : ℚ) : ℚ := (Nat.sqrt (q.num.toNat * q.den) : ℚ) / (q.den : ℚ)

/-- Population standard deviation (via `ratSqrt`). -/
def stdQ (l : List ℚ) : ℚ := ratSqrt (varianceQ l)

/-- Sprint row of the loaded sprint table (§3 of the spec; the columns
`src/app.py` reads). -/
structure Sprint where
  sprint_number : ℕ
  committed_points : ℚ
  completed_points : ℚ
  completion_rate : ℚ
  velocity : ℚ
  team_capacity : ℚ
deriving Repr, DecidableEq

/-- Story row of the loaded story table (the columns the embedded
computations read: sprint number, nullable assignee, final points). -/
structure Story where
  story_id : ℕ
  sprint_number : ℕ
  assignee_id : Option ℕ
  final_story_points : ℚ
deriving Repr, DecidableEq

/-- Team-member row of the loaded team table. -/
structure TeamMember where
  member_id : ℕ
  name : String
  avg_capacity_per_sprint : ℚ
deriving Repr, DecidableEq

/-- Initiative status enum (§3 of the spec). -/
inductive InitStatus where
  | backlog
  | active
  | completed
  | deprioritized
deriving Repr, DecidableEq

/-- Initiative row of the loaded initiative table (§3 of the spec).
The spec describes an initiative-age risk factor (§4.3) without naming the
backing attribute; it is modelled as `created_sprint`, the sprint number at
which the initiative entered the portfolio. -/
structure Initiative where
  initiative_id : ℕ
  status : InitStatus
  impact_score : ℚ
  effort_score : ℚ
  total_story_points : ℚ
  created_sprint : ℕ
deriving Repr, DecidableEq

/-- Initiative augmented with the derived `priority_score` column. -/
structure PInitiative where
  base : Initiative
  priority_score : ℚ
deriving Repr, DecidableEq

/-- Impact/Effort quadrant (§4.2 of the spec). -/
inductive Quadrant where
  | quickWins
  | majorProjects
  | fillIns
  | timeSinks
deriving Repr, DecidableEq

/-- Initiative augmented with both derived columns. -/
structure QInitiative where
  scored : PInitiative
  quadrant : Quadrant
deriving Repr, DecidableEq

/-- Small positive epsilon used as a floor for `effort_score`
(a design constant; the spec fixes only that it is small and positive). -/
def effortEpsilon : ℚ := 1 / 10

/-- Modelled from the spec: `add_priority_scores` of `utils.prioritization`
(imported by `src/app.py` but absent from the repository).
priority_score = (impact_score × 10) / effort_score, with effort_score
floor-clamped to a small positive epsilon to avoid division by zero. -/
def add_priority_scores (inits : List Initiative) : List PInitiative :=
  inits.map (fun i => ⟨i, i.impact_score * 10 / max i.effort_score effortEpsilon⟩)

/-- Fixed midpoint threshold of the quadrant classification
(§4.2: a fixed midpoint such as 5.0 on each axis). -/
def midThreshold : ℚ := 5

/-- Modelled from the spec: the four-way quadrant rule of
`add_quadrant_classification` (§4.2), ties at the threshold resolving to
the `≥` branch. -/
def classifyQuadrant (impact effort : ℚ) : Quadrant :=
  if midThreshold ≤ impact then
    if effort < midThreshold then Quadrant.quickWins else Quadrant.majorProjects
  else
    if effort < midThreshold then Quadrant.fillIns else Quadrant.timeSinks

/-- Modelled from the spec: `add_quadrant_classification` of
`utils.prioritization` (imported by `src/app.py` but absent from the
repository). -/
def add_quadrant_classification (inits : List PInitiative) : List QInitiative :=
  inits.map (fun p => ⟨p, classifyQuadrant p.base.impact_score p.base.effort_score⟩)

/-- Row of the portfolio-composition table (`src/app.py` reads the columns
`quadrant` and `initiative_count` from it). -/
structure CompositionRow where
  quadrant : Quadrant
  initiative_count : ℕ
deriving Repr, DecidableEq

/-- Modelled from the spec: `get_portfolio_composition` of
`utils.prioritization` (imported by `src/app.py` but absent from the
repository).  Count of initiatives per quadrant, all four quadrants always
present in the output (zero-filled if empty). -/
def get_portfolio_composition (inits : List QInitiative) : List CompositionRow :=
  [ ⟨Quadrant.quickWins, inits.countP (fun q => q.quadrant = Quadrant.quickWins)⟩,
    ⟨Quadrant.majorProjects, inits.countP (fun q => q.quadrant = Quadrant.majorProjects)⟩,
    ⟨Quadrant.fillIns, inits.countP (fun q => q.quadrant = Quadrant.fillIns)⟩,
    ⟨Quadrant.timeSinks, inits.countP (fun q => q.quadrant = Quadrant.timeSinks)⟩ ]

/-- Health-score result record: `src/app.py` reads `health_score`; the spec
additionally reports the three sub-scores for drill-down. -/
structure HealthResult where
  health_score : ℚ
  completion_sub : ℚ
  consistency_sub : ℚ
  accuracy_sub : ℚ
deriving Repr, DecidableEq

/-- Fixed weight of the completion-rate sub-score (the weights are design
constants summing to 1). -/
def wCompletion : ℚ := 2 / 5

/-- Fixed weight of the consistency sub-score. -/
def wConsistency : ℚ := 3 / 10

/-- Fixed weight of the estimation-accuracy sub-score. -/
def wAccuracy : ℚ := 3 / 10

/-- Modelled from the spec: `calculate_sprint_health_score` of
`utils.metrics` (imported by `src/app.py` but absent from the repository).
Composite of three weighted sub-scores (§4.1): completion rate scaled to 100
and capped at 100; consistency from the coefficient of variation of velocity
(1 − std/mean, scaled, clamped to [0,100]), defaulting to the neutral
midpoint 50 when the history has fewer than 2 entries; estimation accuracy
from the relative deviation of completed versus committed points (the
function receives only the two sprint arguments `src/app.py` passes, so the
story-level deviation of the spec is modelled by the sprint-level one),
clamped to [0,100]. -/
def calculate_sprint_health_score (current : Sprint) (allSprints : List Sprint) :
    HealthResult :=
  let completionSub := min (current.completion_rate * 100) 100
  let vels := allSprints.map (fun s => s.velocity)
  let consistencySub :=
    if allSprints.length < 2 then 50
    else clampQ 0 100 ((1 - stdQ vels / meanQ vels) * 100)
  let accuracySub :=
    clampQ 0 100
      ((1 - |current.completed_points - current.committed_points|
              / max current.committed_points 1) * 100)
  ⟨wCompletion * completionSub + wConsistency * consistencySub
      + wAccuracy * accuracySub,
    completionSub, consistencySub, accuracySub⟩

/-- Modelled from the spec: the rolling-average column computed by
`calculate_rolling_metrics` of `utils.data_processing` (imported by
`src/app.py` but absent from the repository).  Entry `i` is the mean of the
velocities at indices `[max(0, i-2) .. i]` (trailing window of width at most
3, widening at the start). -/
def rollingAvgs (vels : List ℚ) : List ℚ :=
  (List.range vels.length).map
    (fun i => meanQ ((vels.drop (i - 2)).take (i + 1 - (i - 2))))

/-- Modelled from the spec: `calculate_rolling_metrics` of
`utils.data_processing`; returns the sprint table with the
`velocity_rolling_avg` column appended (here: each sprint paired with its
rolling average). -/
def calculate_rolling_metrics (sprints : List Sprint) : List (Sprint × ℚ) :=
  sprints.zip (rollingAvgs (sprints.map (fun s => s.velocity)))

/-- Velocity-forecast result: `src/app.py` reads the `forecast` list; the
spec also asks for a confidence band derived from the historical standard
deviation. -/
structure ForecastResult where
  forecast : List ℚ
  lower_bound : List ℚ
  upper_bound : List ℚ
deriving Repr, DecidableEq

/-- Modelled from the spec: `forecast_velocity_next_n_sprints` of
`utils.predictive_models` (imported by `src/app.py` but absent from the
repository).  Linear-trend projection of the next `n` velocities with a
±std confidence band; an empty or single-point history degrades to
repeating the last known velocity (no extrapolation from insufficient
data), with 0 standing in for the last velocity of an empty history. -/
def forecast_velocity_next_n_sprints (sprints : List Sprint) (n : ℕ) :
    ForecastResult :=
  let vels := sprints.map (fun s => s.velocity)
  if vels.length < 2 then
    let lastV := vels.getLast?.getD 0
    ⟨List.replicate n lastV, List.replicate n lastV, List.replicate n lastV⟩
  else
    let firstV := vels.headD 0
    let lastV := vels.getLast?.getD 0
    let slope := (lastV - firstV) / (vels.length - 1 : ℕ)
    let sd := stdQ vels
    let base := (List.range n).map (fun k => lastV + slope * (k + 1 : ℕ))
    ⟨base, base.map (fun x => x - sd), base.map (fun x => x + sd)⟩

/-- Modelled from the spec: `predict_sprint_completion_probability` of
`utils.predictive_models` (imported by `src/app.py` but absent from the
repository).  The historical per-sprint completion rates give an empirical
distribution; `samples` is the explicit random source demanded by the
design notes (§9), the per-trial completion rates drawn from that
distribution (design default: 1000 trials).  Each trial simulates
completed points as capacity × sampled rate; the output is the fraction of
trials reaching `committed`.  Degenerate case (history < 2 points or zero
variance): a deterministic threshold comparison instead of sampling. -/
def predict_sprint_completion_probability (committed capacity : ℚ)
    (historyRates : List ℚ) (samples : List ℚ) : ℚ :=
  if historyRates.length < 2 ∨ varianceQ historyRates = 0 then
    if committed ≤ capacity * meanQ historyRates then 1 else 0
  else
    (samples.countP (fun r => committed ≤ capacity * r) : ℚ) / samples.length

/-- Risk level enum of the predictive engine (§4.3). -/
inductive RiskLevel where
  | low
  | medium
  | high
deriving Repr, DecidableEq

/-- Numeric rank of a risk level (used to state monotonicity). -/
def RiskLevel.rank : RiskLevel → ℕ
  | RiskLevel.low => 0
  | RiskLevel.medium => 1
  | RiskLevel.high => 2

/-- High-load threshold on team utilization (design constant, §4.3(a)). -/
def highLoadThreshold : ℚ := 9 / 10

/-- Stagnation horizon in sprints (design constant, §4.3(b)). -/
def stagnationSprints : ℕ := 4

/-- High-complexity threshold on effort (design constant, §4.3(c)). -/
def highComplexityThreshold : ℚ := 7

/-- Modelled from the spec: the weighted combination of the three risk
factors of `assess_all_initiatives_risk` (§4.3): (a) team utilization above
the high-load threshold, (b) still Backlog after the stagnation horizon,
(c) effort above the high-complexity threshold combined with Active
status. -/
def riskPoints (util : ℚ) (status : InitStatus) (age : ℕ) (effort : ℚ) : ℕ :=
  (if highLoadThreshold < util then 1 else 0)
    + (if status = InitStatus.backlog ∧ stagnationSprints < age then 1 else 0)
    + (if status = InitStatus.active ∧ highComplexityThreshold < effort
        then 1 else 0)

/-- Modelled from the spec: risk level from accumulated risk points
(0 → Low, 1 → Medium, 2 or more → High). -/
def riskLevelOfPoints (p : ℕ) : RiskLevel :=
  if 2 ≤ p then RiskLevel.high
  else if 1 ≤ p then RiskLevel.medium
  else RiskLevel.low

/-- Modelled from the spec: per-initiative risk rule of
`assess_all_initiatives_risk`, the initiative age being the number of
sprints since it entered the portfolio. -/
def assessInitiativeRisk (util : ℚ) (currentSprint : ℕ) (i : Initiative) :
    RiskLevel :=
  riskLevelOfPoints
    (riskPoints util i.status (currentSprint - i.created_sprint) i.effort_score)

/-- Modelled from the spec: `assess_all_initiatives_risk` of
`utils.predictive_models` (imported by `src/app.py` but absent from the
repository).  `src/app.py` also passes the sprint table; the modelled rule
needs only the current sprint number, so that argument is unused. -/
def assess_all_initiatives_risk (inits : List Initiative)
    (currentSprint : ℕ) (_sprints : List Sprint) (util : ℚ) :
    List (Initiative × RiskLevel) :=
  inits.map (fun i => (i, assessInitiativeRisk util currentSprint i))

/-- Embedding of numpy float subtraction: non-finite operands propagate. -/
def npSub : Option ℚ → Option ℚ → Option ℚ
  | some a, some b => some (a - b)
  | _, _ => none

/-- Embedding of numpy float multiplication: non-finite operands
propagate (only ever applied with a nonzero literal factor here). -/
def npMul : Option ℚ → Option ℚ → Option ℚ
  | some a, some b => some (a * b)
  | _, _ => none

/-- Embedding of numpy float division: a zero denominator yields a
non-finite value (±inf or NaN) instead of raising. -/
def npDiv : Option ℚ → Option ℚ → Option ℚ
  | some a, some b => if b = 0 then none else some (a / b)
  | _, _ => none

/-- Embedding of `pandas.Series.mean`: the mean of an empty series is
NaN (non-finite), never an exception. -/
def npMean (l : List ℚ) : Option ℚ :=
  if l.length = 0 then none else some (meanQ l)

/-- Embedding of `pandas.Series.std` (sample standard deviation,
`ddof = 1`): NaN (non-finite) on fewer than 2 entries.  Only the
finiteness of the value matters to the claims below, so the square root is
`ratSqrt`. -/
def npStd (l : List ℚ) : Option ℚ :=
  if l.length < 2 then none
  else some (ratSqrt ((l.map (fun x => (x - meanQ l) ^ 2)).sum / (l.length - 1 : ℕ)))

/-- Embedded from `src/app.py` lines 671–672:
`velocity_change = ((sprints_df.tail(3)['velocity'].mean() -
sprints_df.head(3)['velocity'].mean()) / sprints_df.head(3)['velocity'].mean()
* 100)`. -/
def velocity_change (sprints : List Sprint) : Option ℚ :=
  let vels := sprints.map (fun s => s.velocity)
  npMul
    (npDiv (npSub (npMean (vels.drop (vels.length - 3))) (npMean (vels.take 3)))
      (npMean (vels.take 3)))
    (some 100)

/-- Embedded from `src/app.py` line 696 (and line 853):
`predictability = 1 - (sprints_df['velocity'].std() /
sprints_df['velocity'].mean())`. -/
def predictability (sprints : List Sprint) : Option ℚ :=
  let vels := sprints.map (fun s => s.velocity)
  npSub (some 1) (npDiv (npStd vels) (npMean vels))

/-- Embedded from `src/app.py` lines 844–846, which recompute the same
expression as lines 671–672:
`improvement = ((late_velocity - early_velocity) / early_velocity * 100)`
with `early_velocity = sprints_df.head(3)['velocity'].mean()` and
`late_velocity = sprints_df.tail(3)['velocity'].mean()`. -/
def improvement (sprints : List Sprint) : Option ℚ := velocity_change sprints

/-- First word of a member's display name (`member['name'].split()[0]` in
`src/app.py` line 642). -/
def firstName (s : String) : String := (s.splitOn " ").headD ""

/-- Row of the Executive-Summary team heatmap (`src/app.py` lines
641–645). -/
structure HeatEntry where
  member_name : String
  sprint_number : ℕ
  utilization_pct : ℚ
deriving Repr, DecidableEq

/-- Embedded from `src/app.py` lines 632–645: the Executive-Summary team
heatmap rows.  Outer loop over `sprints_df.tail(6)['sprint_number']`, inner
loop over `team_df['member_id'].head(6)`; the member row is looked up as
`team_df[team_df['member_id'] == member_id].iloc[0]` (first match, embedded
with `List.find?`; the lookup always succeeds since the id is drawn from the
team table, and an impossible miss is skipped).  Points are the sum of the
member's `final_story_points` among the sprint's stories, and
`utilization = (points / member['avg_capacity_per_sprint'] * 100) if
member['avg_capacity_per_sprint'] > 0 else 0`. -/
def team_sprint_metrics (sprints : List Sprint) (stories : List Story)
    (team : List TeamMember) : List HeatEntry :=
  (sprints.drop (sprints.length - 6)).flatMap (fun s =>
    let sprint_stories :=
      stories.filter (fun st => st.sprint_number == s.sprint_number)
    ((team.take 6).map (fun m => m.member_id)).filterMap (fun mid =>
      match team.find? (fun m => m.member_id == mid) with
      | none => none
      | some member =>
        let member_stories :=
          sprint_stories.filter (fun st => st.assignee_id == some mid)
        let points := (member_stories.map (fun st => st.final_story_points)).sum
        let utilization :=
          if 0 < member.avg_capacity_per_sprint then
            points / member.avg_capacity_per_sprint * 100
          else 0
        some ⟨ firstName member.name, s.sprint_number, utilization⟩))

/-- Spec-side story aggregate of claim C9: the member's final story points
within one sprint, as a single pass over the story table. -/
def memberSprintPoints (stories : List Story) (sprintNum : ℕ) (mid : ℕ) : ℚ :=
  ((stories.filter (fun st =>
      st.assignee_id == some mid && st.sprint_number == sprintNum)).map
    (fun st => st.final_story_points)).sum

/-- C1 helper: the concrete initiative used to instantiate the theorem. -/
def c1SampleInits : List Initiative :=
  [⟨1, InitStatus.backlog, 9, 3, 20, 1⟩, ⟨2, InitStatus.active, 4, 0, 5, 1⟩]

/-- C3 helper: the concrete sprint used to instantiate the theorem. -/
def c3Sprint : Sprint := ⟨7, 30, 24, 4 / 5, 24, 40⟩

/-- C4 helper: the sprint table of the spec's worked example, with
velocities [20, 22, 25, 24, 30, 28]. -/
def c4Sprints : List Sprint :=
  [⟨1, 24, 20, 5 / 6, 20, 40⟩, ⟨2, 24, 22, 11 / 12, 22, 40⟩,
   ⟨3, 26, 25, 25 / 26, 25, 40⟩, ⟨4, 28, 24, 6 / 7, 24, 40⟩,
   ⟨5, 32, 30, 15 / 16, 30, 40⟩, ⟨6, 30, 28, 14 / 15, 28, 40⟩]

/-- Round a rational to two decimal places (for comparing with the
two-decimal values quoted by the spec's worked example). -/
def round2 (x : ℚ) : ℚ := (round (x * 100) : ℤ) / 100

/-- C5 helper: a well-formed single-sprint history. -/
def c5Single : List Sprint := [⟨1, 20, 10, 1 / 2, 10, 30⟩]

/-- C5 helper: a well-formed table whose first three sprints have zero
velocity, so the early-window mean velocity is zero. -/
def c5ZeroStart : List Sprint :=
  [⟨1, 10, 0, 0, 0, 30⟩, ⟨2, 10, 0, 0, 0, 30⟩,
   ⟨3, 10, 0, 0, 0, 30⟩, ⟨4, 10, 5, 1 / 2, 5, 30⟩]

/-- C5 helper: a well-formed table with non-degenerate statistics. -/
def c5Healthy : List Sprint :=
  [⟨1, 24, 20, 5 / 6, 20, 40⟩, ⟨2, 24, 22, 11 / 12, 22, 40⟩,
   ⟨3, 26, 25, 25 / 26, 25, 40⟩]

/-- C9 and C10 helper: a one-sprint table. -/
def cSprints1 : List Sprint := [⟨1, 10, 8, 4 / 5, 8, 20⟩]

/-- C9 and C10 helper: two stories of sprint 1, one assigned to member 3. -/
def cStories1 : List Story := [⟨1, 1, some 3, 5⟩, ⟨2, 1, some 9, 4⟩]

/-- C9 and C10 helper: a one-member team table. -/
def cTeam1 : List TeamMember := [⟨3, "Ana", 10⟩]

theorem clampQ_bounds (lo hi x : ℚ) (h : lo ≤ hi) :
    lo ≤ clampQ lo hi x ∧ clampQ lo hi x ≤ hi :=
  ⟨le_min h (le_max_left lo x), min_le_left hi (max lo x)⟩

theorem countP_quadrant_partition (inits : List QInitiative) :
    inits.countP (fun q => q.quadrant = Quadrant.quickWins)
      + inits.countP (fun q => q.quadrant = Quadrant.majorProjects)
      + inits.countP (fun q => q.quadrant = Quadrant.fillIns)
      + inits.countP (fun q => q.quadrant = Quadrant.timeSinks)
      = inits.length := by
  induction inits with
  | nil => rfl
  | cons h t ih =>
    rcases hq : h.quadrant <;>
      simp [List.countP_cons, hq, decide_eq_true_eq] <;> omega

/-- C1: for every Initiative row processed by `add_priority_scores`, the
computation divides by the positive clamped effort (never by zero, even when
`effort_score = 0`), the resulting `priority_score` equals
`impact_score × 10 / effort_score` exactly whenever the effort is at least
the clamping epsilon, and a zero effort yields `impact_score × 10` divided
by the epsilon. -/
theorem add_priority_scores_spec (inits : List Initiative) (p : PInitiative)
    (hp : p ∈ add_priority_scores inits) :
    0 < max p.base.effort_score effortEpsilon
    ∧ (effortEpsilon ≤ p.base.effort_score →
        p.priority_score = p.base.impact_score * 10 / p.base.effort_score)
    ∧ (p.base.effort_score = 0 →
        p.priority_score = p.base.impact_score * 10 / effortEpsilon) := by
  simp only [add_priority_scores, List.mem_map] at hp
  obtain ⟨i, _, rfl⟩ := hp
  refine ⟨lt_of_lt_of_le (by norm_num [effortEpsilon]) (le_max_right _ _), ?_, ?_⟩
  · intro h
    simp only
    rw [max_eq_left (le_trans (by norm_num [effortEpsilon]) h)]
  · intro h
    simp only
    rw [h, max_eq_right (by norm_num [effortEpsilon])]

/-- Witness for C1 at the spec's worked example (impact 9, effort 3,
priority 30) drawn from a concrete initiative table that also contains a
zero-effort row. -/
theorem add_priority_scores_spec_witness :
    0 < max (⟨⟨1, InitStatus.backlog, 9, 3, 20, 1⟩, 30⟩ : PInitiative).base.effort_score effortEpsilon
    ∧ (effortEpsilon ≤ (⟨⟨1, InitStatus.backlog, 9, 3, 20, 1⟩, 30⟩ : PInitiative).base.effort_score →
        (⟨⟨1, InitStatus.backlog, 9, 3, 20, 1⟩, 30⟩ : PInitiative).priority_score
          = (⟨⟨1, InitStatus.backlog, 9, 3, 20, 1⟩, 30⟩ : PInitiative).base.impact_score * 10
            / (⟨⟨1, InitStatus.backlog, 9, 3, 20, 1⟩, 30⟩ : PInitiative).base.effort_score)
    ∧ ((⟨⟨1, InitStatus.backlog, 9, 3, 20, 1⟩, 30⟩ : PInitiative).base.effort_score = 0 →
        (⟨⟨1, InitStatus.backlog, 9, 3, 20, 1⟩, 30⟩ : PInitiative).priority_score
          = (⟨⟨1, InitStatus.backlog, 9, 3, 20, 1⟩, 30⟩ : PInitiative).base.impact_score * 10
            / effortEpsilon) :=
  add_priority_scores_spec c1SampleInits ⟨⟨1, InitStatus.backlog, 9, 3, 20, 1⟩, 30⟩ (by
    simp only [add_priority_scores, c1SampleInits, List.map_cons, List.map_nil,
      List.mem_cons, PInitiative.mk.injEq]
    left
    constructor
    · trivial
    · rw [max_eq_left (by norm_num [effortEpsilon] : effortEpsilon ≤ (3 : ℚ))]
      norm_num)

/-- C2: the quadrant classification is total and exhaustive — every
impact/effort pair maps to exactly one of the four quadrants,
`add_quadrant_classification` classifies every row, and
`get_portfolio_composition` always lists all four quadrant categories,
with counts summing to the number of initiatives. -/
theorem quadrant_partition_spec (impact effort : ℚ) (ps : List PInitiative)
    (inits : List QInitiative) :
    (classifyQuadrant impact effort = Quadrant.quickWins
      ∨ classifyQuadrant impact effort = Quadrant.majorProjects
      ∨ classifyQuadrant impact effort = Quadrant.fillIns
      ∨ classifyQuadrant impact effort = Quadrant.timeSinks)
    ∧ (add_quadrant_classification ps).length = ps.length
    ∧ (get_portfolio_composition inits).map (fun r => r.quadrant)
        = [Quadrant.quickWins, Quadrant.majorProjects,
           Quadrant.fillIns, Quadrant.timeSinks]
    ∧ ((get_portfolio_composition inits).map (fun r => r.initiative_count)).sum
        = inits.length := by
  refine ⟨?_, by simp [add_quadrant_classification], rfl, ?_⟩
  · unfold classifyQuadrant
    split_ifs <;> simp
  · have h := countP_quadrant_partition inits
    simp only [get_portfolio_composition, List.map_cons, List.map_nil,
      List.sum_cons, List.sum_nil]
    omega

/-- C3: for every current sprint (with a well-formed nonnegative completion
rate) and every non-empty sprint history — including a history of exactly
one sprint — `calculate_sprint_health_score` returns a health score in the
closed interval [0, 100], and when the history has fewer than 2 entries the
consistency sub-score is the neutral midpoint 50 instead of a value obtained
by dividing by the degenerate statistics. -/
theorem sprint_health_score_spec (current : Sprint) (allSprints : List Sprint)
    (hrate : 0 ≤ current.completion_rate) (_hne : allSprints ≠ []) :
    (0 ≤ (calculate_sprint_health_score current allSprints).health_score
      ∧ (calculate_sprint_health_score current allSprints).health_score ≤ 100)
    ∧ (allSprints.length < 2 →
        (calculate_sprint_health_score current allSprints).consistency_sub = 50) := by
  have hcomp0 : 0 ≤ min (current.completion_rate * 100) 100 :=
    le_min (mul_nonneg hrate (by norm_num)) (by norm_num)
  have hcomp1 : min (current.completion_rate * 100) 100 ≤ (100 : ℚ) :=
    min_le_right _ _
  have hkon := clampQ_bounds 0 100
    ((1 - stdQ (allSprints.map (fun s => s.velocity))
        / meanQ (allSprints.map (fun s => s.velocity))) * 100) (by norm_num)
  have hacc := clampQ_bounds 0 100
    ((1 - |current.completed_points - current.committed_points|
        / max current.committed_points 1) * 100) (by norm_num)
  simp only [calculate_sprint_health_score, wCompletion, wConsistency, wAccuracy]
  refine ⟨⟨?_, ?_⟩, ?_⟩
  · split_ifs with h
    · linarith [hcomp0, hcomp1, hacc.1, hacc.2]
    · linarith [hcomp0, hcomp1, hkon.1, hkon.2, hacc.1, hacc.2]
  · split_ifs with h
    · linarith [hcomp0, hcomp1, hacc.1, hacc.2]
    · linarith [hcomp0, hcomp1, hkon.1, hkon.2, hacc.1, hacc.2]
  · intro h
    simp [h]

/-- Witness for C3 at a concrete sprint with a history of length 1. -/
theorem sprint_health_score_spec_witness :
    (0 ≤ (calculate_sprint_health_score c3Sprint [c3Sprint]).health_score
      ∧ (calculate_sprint_health_score c3Sprint [c3Sprint]).health_score ≤ 100)
    ∧ ([c3Sprint].length < 2 →
        (calculate_sprint_health_score c3Sprint [c3Sprint]).consistency_sub = 50) :=
  sprint_health_score_spec c3Sprint [c3Sprint] (by norm_num [c3Sprint]) (by simp)

theorem meanQ_singleton (x : ℚ) : meanQ [x] = x := by
  simp [meanQ]

theorem slice_eq_map_range2 (l : List ℚ) (lo k : ℕ) (h : lo + k ≤ l.length) :
    (l.drop lo).take k = (List.range' lo k).map (fun j => l.getD j 0) := by
  apply List.ext_getElem
  · simp [List.length_take, List.length_drop, List.length_range']
    omega
  · intro i h1 h2
    simp only [List.getElem_take, List.getElem_drop, List.getElem_map,
      List.getElem_range']
    rw [List.getD_eq_getElem]
    · simp
    · simp only [List.length_take, List.length_drop] at h1
      omega

theorem rollingAvgs_length (vels : List ℚ) :
    (rollingAvgs vels).length = vels.length := by
  simp [rollingAvgs]

theorem rollingAvgs_get (vels : List ℚ) (i : ℕ) (hi : i < vels.length) :
    (rollingAvgs vels).get ⟨i, by rw [rollingAvgs_length]; exact hi⟩
      = meanQ ((List.range' (i - 2) (i + 1 - (i - 2))).map
          (fun j => vels.getD j 0)) := by
  simp only [List.get_eq_getElem, rollingAvgs, List.getElem_map,
    List.getElem_range]
  rw [slice_eq_map_range2]
  omega

theorem calculate_rolling_metrics_length (sprints : List Sprint) :
    (calculate_rolling_metrics sprints).length = sprints.length := by
  simp [calculate_rolling_metrics, rollingAvgs]

/-- C4: `calculate_rolling_metrics` preserves the row count of the sprint
table; the rolling-average column at each index `i` is the mean of the
velocities over indices `[max(0, i−2) .. i]`; at index 0 it is that
sprint's own velocity; and on the spec's worked example with velocities
[20, 22, 25, 24, 30, 28] the rolling averages, rounded to two decimals,
are [20, 21, 22.33, 23.67, 26.33, 27.33]. -/
theorem rolling_metrics_spec (sprints : List Sprint) :
    ((calculate_rolling_metrics sprints).length = sprints.length)
    ∧ (∀ i, (hi : i < sprints.length) →
        (calculate_rolling_metrics sprints).get
            ⟨i, by rw [calculate_rolling_metrics_length]; exact hi⟩
          = (sprints.get ⟨i, hi⟩,
              meanQ ((List.range' (i - 2) (i + 1 - (i - 2))).map
                (fun j => (sprints.map (fun s => s.velocity)).getD j 0))))
    ∧ (0 < sprints.length →
        (rollingAvgs (sprints.map (fun s => s.velocity))).headD 0
          = (sprints.map (fun s => s.velocity)).headD 0)
    ∧ (calculate_rolling_metrics c4Sprints).map (fun p => round2 p.2)
        = [20, 21, 22.33, 23.67, 26.33, 27.33] := by
  refine ⟨calculate_rolling_metrics_length sprints, ?_, ?_, ?_⟩
  · intro i hi
    simp only [List.get_eq_getElem]
    unfold calculate_rolling_metrics
    rw [List.getElem_zip]
    have h := rollingAvgs_get (sprints.map (fun s => s.velocity)) i
      (by simpa using hi)
    simp only [List.get_eq_getElem] at h
    rw [h]
  · intro hpos
    rcases sprints with _ | ⟨s, rest⟩
    · simp at hpos
    · simp only [List.map_cons, rollingAvgs, List.length_cons]
      rw [List.range_succ_eq_map]
      simp [meanQ]
  · have hr : List.range 6 = [0, 1, 2, 3, 4, 5] := by decide
    simp only [calculate_rolling_metrics, c4Sprints, rollingAvgs,
      List.map_cons, List.map_nil, List.length_cons, List.length_nil]
    norm_num [hr, meanQ, round2, round_eq]

/-- Witness for C4 at the worked example's sprint table and index 3 (a
full trailing window). -/
theorem rolling_metrics_spec_witness :
    (calculate_rolling_metrics c4Sprints).get
        ⟨3, by rw [calculate_rolling_metrics_length]; norm_num [c4Sprints]⟩
      = (c4Sprints.get ⟨3, by norm_num [c4Sprints]⟩,
          meanQ ((List.range' (3 - 2) (3 + 1 - (3 - 2))).map
            (fun j => (c4Sprints.map (fun s => s.velocity)).getD j 0))) :=
  (rolling_metrics_spec c4Sprints).2.1 3 (by norm_num [c4Sprints])

/-- C5 counterexample: the claim that each affected metric yields an
explicit fallback value on degenerate statistics is false on the code as
written — on a well-formed single-sprint history the predictability
computation of `src/app.py` line 696 produces a non-finite value (NaN, from
the sample standard deviation of one point), and on a well-formed table
whose first three sprints have zero velocity the velocity-change
computation of lines 671–672 divides by a zero mean and produces a
non-finite value (NaN/inf); neither is an explicit fallback. -/
theorem degenerate_metrics_counterexample :
    predictability c5Single = none ∧ velocity_change c5ZeroStart = none := by
  constructor
  · simp [predictability, c5Single, npStd, npDiv, npSub]
  · norm_num [velocity_change, c5ZeroStart, npMean, npSub, npDiv, npMul, meanQ]

/-- C5 amended: the velocity-change, predictability and improvement
computations of `src/app.py` never raise (they are total; numpy float
semantics turn degenerate statistics into a non-finite NaN/inf result,
embedded as `none`, rather than an exception), and they produce finite
values whenever the statistics are non-degenerate: at least two sprints
and a nonzero mean velocity for predictability, and a nonzero mean over
the first three velocities for velocity-change and improvement.  No
explicit fallback value is defined for the degenerate inputs. -/
theorem degenerate_metrics_amended (sprints : List Sprint)
    (h2 : 2 ≤ sprints.length)
    (hm : meanQ (sprints.map (fun s => s.velocity)) ≠ 0)
    (hh : meanQ ((sprints.map (fun s => s.velocity)).take 3) ≠ 0) :
    (predictability sprints).isSome = true
    ∧ (velocity_change sprints).isSome = true
    ∧ (improvement sprints).isSome = true := by
  have hlen : (sprints.map (fun s => s.velocity)).length = sprints.length := by
    simp
  have hvc : (velocity_change sprints).isSome = true := by
    simp only [velocity_change, npMean, List.length_take, List.length_drop, hlen]
    rw [if_neg (by omega : ¬(sprints.length - (sprints.length - 3) = 0))]
    rw [if_neg (by omega : ¬(min 3 sprints.length = 0))]
    simp only [npSub]
    simp only [npDiv]
    rw [if_neg hh]
    simp [npMul]
  refine ⟨?_, hvc, ?_⟩
  · simp only [predictability, npStd, npMean, hlen]
    rw [if_neg (by omega : ¬(sprints.length < 2))]
    rw [if_neg (by omega : ¬(sprints.length = 0))]
    simp only [npDiv]
    rw [if_neg hm]
    simp [npSub]
  · simpa [improvement] using hvc

/-- Witness for the amended C5 at a concrete three-sprint table with
non-degenerate statistics. -/
theorem degenerate_metrics_amended_witness :
    (predictability c5Healthy).isSome = true
    ∧ (velocity_change c5Healthy).isSome = true
    ∧ (improvement c5Healthy).isSome = true :=
  degenerate_metrics_amended c5Healthy (by norm_num [c5Healthy])
    (by norm_num [c5Healthy, meanQ])
    (by norm_num [c5Healthy, meanQ])

/-- C6: `forecast_velocity_next_n_sprints` returns exactly `n` forecast
values for every sprint table and every `n`, and when the history contains
exactly one sprint of velocity `V` every forecast value equals `V`. -/
theorem forecast_spec (sprints : List Sprint) (n : ℕ) :
    (forecast_velocity_next_n_sprints sprints n).forecast.length = n
    ∧ (∀ s, sprints = [s] →
        ∀ x ∈ (forecast_velocity_next_n_sprints sprints n).forecast,
          x = s.velocity) := by
  constructor
  · simp only [forecast_velocity_next_n_sprints]
    split_ifs <;> simp
  · rintro s rfl x hx
    simp only [forecast_velocity_next_n_sprints, List.map_cons,
      List.map_nil] at hx
    rw [if_pos (by simp)] at hx
    simp only [List.getLast?_singleton, Option.getD_some] at hx
    exact List.eq_of_mem_replicate hx

/-- Witness for C6: a single-sprint history and a four-sprint forecast. -/
theorem forecast_spec_witness :
    (forecast_velocity_next_n_sprints [c3Sprint] 4).forecast.length = 4
    ∧ (∀ x ∈ (forecast_velocity_next_n_sprints [c3Sprint] 4).forecast,
        x = c3Sprint.velocity) :=
  ⟨(forecast_spec [c3Sprint] 4).1, (forecast_spec [c3Sprint] 4).2 c3Sprint rfl⟩

theorem countP_mono_of_imp (l : List ℚ) (p q : ℚ → Bool)
    (h : ∀ x, p x = true → q x = true) : l.countP p ≤ l.countP q := by
  induction l with
  | nil => simp
  | cons a t ih =>
    by_cases hp : p a = true
    · simp [List.countP_cons, hp, h a hp]
      omega
    · simp only [List.countP_cons]
      split_ifs <;> omega

/-- C7: `predict_sprint_completion_probability` always returns a value in
[0, 1], and it is monotonic in the committed-versus-completed gap — for
fixed history, capacity and trial samples, decreasing the committed points
never decreases the returned probability (in both the sampling branch and
the degenerate deterministic branch). -/
theorem completion_probability_spec (committed committed2 capacity : ℚ)
    (historyRates samples : List ℚ) (hc : committed2 ≤ committed) :
    (0 ≤ predict_sprint_completion_probability committed capacity
          historyRates samples
      ∧ predict_sprint_completion_probability committed capacity
          historyRates samples ≤ 1)
    ∧ predict_sprint_completion_probability committed capacity
          historyRates samples
        ≤ predict_sprint_completion_probability committed2 capacity
            historyRates samples := by
  unfold predict_sprint_completion_probability
  by_cases hC : historyRates.length < 2 ∨ varianceQ historyRates = 0
  · simp only [if_pos hC]
    refine ⟨⟨?_, ?_⟩, ?_⟩
    · split_ifs <;> norm_num
    · split_ifs <;> norm_num
    · split_ifs with h1 h2
      · exact le_refl _
      · exact absurd (le_trans hc h1) h2
      · norm_num
      · exact le_refl _
  · simp only [if_neg hC]
    have hcount := List.countP_le_length
      (fun r => decide (committed ≤ capacity * r)) (l := samples)
    refine ⟨⟨by positivity, ?_⟩, ?_⟩
    · rcases Nat.eq_zero_or_pos samples.length with h0 | hpos
      · rw [List.length_eq_zero] at h0
        simp [h0]
      · rw [div_le_one (by exact_mod_cast hpos)]
        exact_mod_cast hcount
    · apply div_le_div_of_nonneg_right ?_ (by positivity)
      exact_mod_cast countP_mono_of_imp samples _ _
        (fun x hx => by
          simp only [decide_eq_true_eq] at hx ⊢
          exact le_trans hc hx)

/-- Witness for C7 at concrete committed targets 25 and 20, capacity 30,
a two-point history and four trial samples. -/
theorem completion_probability_spec_witness :
    (0 ≤ predict_sprint_completion_probability 25 30 [4 / 5, 9 / 10]
          [7 / 10, 4 / 5, 9 / 10, 1]
      ∧ predict_sprint_completion_probability 25 30 [4 / 5, 9 / 10]
          [7 / 10, 4 / 5, 9 / 10, 1] ≤ 1)
    ∧ predict_sprint_completion_probability 25 30 [4 / 5, 9 / 10]
          [7 / 10, 4 / 5, 9 / 10, 1]
        ≤ predict_sprint_completion_probability 20 30 [4 / 5, 9 / 10]
            [7 / 10, 4 / 5, 9 / 10, 1] :=
  completion_probability_spec 25 20 30 [4 / 5, 9 / 10]
    [7 / 10, 4 / 5, 9 / 10, 1] (by norm_num)

theorem riskLevelOfPoints_rank_mono {p q : ℕ} (h : p ≤ q) :
    (riskLevelOfPoints p).rank ≤ (riskLevelOfPoints q).rank := by
  unfold riskLevelOfPoints
  split_ifs <;> simp [RiskLevel.rank] <;> omega

theorem riskPoints_mono_util {u1 u2 : ℚ} (st : InitStatus) (age : ℕ) (e : ℚ)
    (h : u1 ≤ u2) : riskPoints u1 st age e ≤ riskPoints u2 st age e := by
  unfold riskPoints
  have hA : (if highLoadThreshold < u1 then (1 : ℕ) else 0)
      ≤ (if highLoadThreshold < u2 then 1 else 0) := by
    split_ifs with a b
    · exact le_refl _
    · exact absurd (lt_of_lt_of_le a h) b
    · norm_num
    · exact le_refl _
  omega

theorem riskPoints_mono_age (u : ℚ) (st : InitStatus) {a1 a2 : ℕ} (e : ℚ)
    (h : a1 ≤ a2) : riskPoints u st a1 e ≤ riskPoints u st a2 e := by
  unfold riskPoints
  have hB : (if st = InitStatus.backlog ∧ stagnationSprints < a1
        then (1 : ℕ) else 0)
      ≤ (if st = InitStatus.backlog ∧ stagnationSprints < a2 then 1 else 0) := by
    split_ifs with a b
    · exact le_refl _
    · exact absurd ⟨a.1, lt_of_lt_of_le a.2 h⟩ b
    · norm_num
    · exact le_refl _
  omega

theorem riskPoints_mono_effort (u : ℚ) (st : InitStatus) (age : ℕ)
    {e1 e2 : ℚ} (h : e1 ≤ e2) :
    riskPoints u st age e1 ≤ riskPoints u st age e2 := by
  unfold riskPoints
  have hC : (if st = InitStatus.active ∧ highComplexityThreshold < e1
        then (1 : ℕ) else 0)
      ≤ (if st = InitStatus.active ∧ highComplexityThreshold < e2
          then 1 else 0) := by
    split_ifs with a b
    · exact le_refl _
    · exact absurd ⟨a.1, lt_of_lt_of_le a.2 h⟩ b
    · norm_num
    · exact le_refl _
  omega

/-- C8: `assess_all_initiatives_risk` assigns every initiative a risk level
that is one of Low, Medium, High (one output row per input row), and the
risk rule is monotonic in each individual factor: increasing the team
utilization, the initiative age, or the effort score while holding the
other factors fixed never decreases the rank of the resulting risk
level. -/
theorem initiative_risk_spec (inits : List Initiative) (cur : ℕ)
    (sprs : List Sprint) (util util2 : ℚ) (status : InitStatus)
    (age age2 : ℕ) (effort effort2 : ℚ)
    (hu : util ≤ util2) (ha : age ≤ age2) (he : effort ≤ effort2) :
    ((assess_all_initiatives_risk inits cur sprs util).length = inits.length)
    ∧ (∀ e ∈ assess_all_initiatives_risk inits cur sprs util,
        e.2 = RiskLevel.low ∨ e.2 = RiskLevel.medium ∨ e.2 = RiskLevel.high)
    ∧ (riskLevelOfPoints (riskPoints util status age effort)).rank
        ≤ (riskLevelOfPoints (riskPoints util2 status age effort)).rank
    ∧ (riskLevelOfPoints (riskPoints util status age effort)).rank
        ≤ (riskLevelOfPoints (riskPoints util status age2 effort)).rank
    ∧ (riskLevelOfPoints (riskPoints util status age effort)).rank
        ≤ (riskLevelOfPoints (riskPoints util status age effort2)).rank := by
  refine ⟨by simp [assess_all_initiatives_risk], ?_,
    riskLevelOfPoints_rank_mono (riskPoints_mono_util status age effort hu),
    riskLevelOfPoints_rank_mono (riskPoints_mono_age util status effort ha),
    riskLevelOfPoints_rank_mono (riskPoints_mono_effort util status age he)⟩
  intro e _
  cases e.2 <;> simp

/-- Witness for C8 at a concrete initiative table, sprint 7, and factor
pairs 1/2 ≤ 1 (utilization), 2 ≤ 5 (age), 5 ≤ 8 (effort). -/
theorem initiative_risk_spec_witness :
    ((assess_all_initiatives_risk c1SampleInits 7 [] (1 / 2)).length
        = c1SampleInits.length)
    ∧ ((⟨⟨1, InitStatus.backlog, 9, 3, 20, 1⟩, RiskLevel.medium⟩ :
          Initiative × RiskLevel).2 = RiskLevel.low
        ∨ (⟨⟨1, InitStatus.backlog, 9, 3, 20, 1⟩, RiskLevel.medium⟩ :
            Initiative × RiskLevel).2 = RiskLevel.medium
        ∨ (⟨⟨1, InitStatus.backlog, 9, 3, 20, 1⟩, RiskLevel.medium⟩ :
            Initiative × RiskLevel).2 = RiskLevel.high)
    ∧ (riskLevelOfPoints (riskPoints (1 / 2) InitStatus.active 2 5)).rank
        ≤ (riskLevelOfPoints (riskPoints 1 InitStatus.active 2 5)).rank
    ∧ (riskLevelOfPoints (riskPoints (1 / 2) InitStatus.active 2 5)).rank
        ≤ (riskLevelOfPoints (riskPoints (1 / 2) InitStatus.active 5 5)).rank
    ∧ (riskLevelOfPoints (riskPoints (1 / 2) InitStatus.active 2 5)).rank
        ≤ (riskLevelOfPoints (riskPoints (1 / 2) InitStatus.active 2 8)).rank := by
  have h := initiative_risk_spec c1SampleInits 7 [] (1 / 2) 1
    InitStatus.active 2 5 5 8 (by norm_num) (by norm_num) (by norm_num)
  exact ⟨h.1,
    h.2.1 ⟨⟨1, InitStatus.backlog, 9, 3, 20, 1⟩, RiskLevel.medium⟩
      (by norm_num [assess_all_initiatives_risk, c1SampleInits,
        assessInitiativeRisk, riskPoints, riskLevelOfPoints,
        highLoadThreshold, stagnationSprints, highComplexityThreshold]),
    h.2.2.1, h.2.2.2.1, h.2.2.2.2⟩

/-- C9: every row of the Executive-Summary team heatmap built by
`team_sprint_metrics` comes from a team member `m`, and its
`utilization_pct` equals the sum of that member's `final_story_points` in
that sprint, divided by `avg_capacity_per_sprint` and scaled by 100, when
the capacity is positive — and equals 0 when the capacity is not positive,
so the division is never performed with a non-positive capacity. -/
theorem heatmap_utilization_spec (sprints : List Sprint) (stories : List Story)
    (team : List TeamMember) (e : HeatEntry)
    (he : e ∈ team_sprint_metrics sprints stories team) :
    ∃ m ∈ team, e.member_name = firstName m.name
      ∧ ((0 < m.avg_capacity_per_sprint
            ∧ e.utilization_pct
              = memberSprintPoints stories e.sprint_number m.member_id
                  / m.avg_capacity_per_sprint * 100)
        ∨ (m.avg_capacity_per_sprint ≤ 0 ∧ e.utilization_pct = 0)) := by
  simp only [team_sprint_metrics, List.mem_flatMap, List.mem_filterMap] at he
  obtain ⟨s, hs, mid, hmid, hmatch⟩ := he
  rcases hfind : team.find? (fun m => m.member_id == mid) with _ | member
  · rw [hfind] at hmatch
    cases hmatch
  · rw [hfind] at hmatch
    have hmem : member ∈ team := List.mem_of_find?_eq_some hfind
    have hid : member.member_id = mid := by
      have := List.find?_some hfind
      simpa using this
    obtain rfl : _ = e := Option.some.inj hmatch
    refine ⟨member, hmem, rfl, ?_⟩
    have hpts : ((stories.filter
          (fun st => st.sprint_number == s.sprint_number)).filter
            (fun st => st.assignee_id == some mid)).map
          (fun st => st.final_story_points)
        = (stories.filter (fun st =>
            st.assignee_id == some mid
              && st.sprint_number == s.sprint_number)).map
          (fun st => st.final_story_points) := by
      rw [List.filter_filter]
    by_cases hcap : 0 < member.avg_capacity_per_sprint
    · left
      refine ⟨hcap, ?_⟩
      simp only [if_pos hcap, memberSprintPoints, hid]
      rw [hpts]
    · right
      refine ⟨le_of_not_lt hcap, ?_⟩
      simp only [if_neg hcap]

/-- Witness for C9 at a concrete one-sprint, two-story, one-member
dataset. -/
theorem heatmap_utilization_spec_witness :
    ∃ m ∈ cTeam1,
      (⟨ firstName "Ana", 1, 50⟩ : HeatEntry).member_name = firstName m.name
      ∧ ((0 < m.avg_capacity_per_sprint
            ∧ (⟨ firstName "Ana", 1, 50⟩ : HeatEntry).utilization_pct
              = memberSprintPoints cStories1
                  (⟨ firstName "Ana", 1, 50⟩ : HeatEntry).sprint_number m.member_id
                  / m.avg_capacity_per_sprint * 100)
        ∨ (m.avg_capacity_per_sprint ≤ 0
            ∧ (⟨ firstName "Ana", 1, 50⟩ : HeatEntry).utilization_pct = 0)) :=
  heatmap_utilization_spec cSprints1 cStories1 cTeam1 ⟨ firstName "Ana", 1, 50⟩
    (by norm_num [team_sprint_metrics, cSprints1, cStories1, cTeam1,
      HeatEntry.mk.injEq])

theorem length_filterMap_of_isSome {α β : Type} (f : α → Option β)
    (l : List α) (h : ∀ x ∈ l, (f x).isSome = true) :
    (l.filterMap f).length = l.length := by
  induction l with
  | nil => rfl
  | cons a t ih =>
    rw [List.filterMap_cons]
    rcases hfa : f a with _ | b
    · exact absurd (h a (by simp)) (by simp [hfa])
    · simp [List.length_cons, ih (fun x hx => h x (by simp [hx]))]

theorem flatMap_const_length {α β : Type} (l : List α) (f : α → List β)
    (c : ℕ) (h : ∀ x ∈ l, (f x).length = c) :
    (l.flatMap f).length = l.length * c := by
  induction l with
  | nil => simp
  | cons a t ih =>
    simp only [List.flatMap_cons, List.length_append, h a (by simp),
      ih (fun x hx => h x (by simp [hx])), List.length_cons]
    ring

/-- C10: the Executive-Summary team heatmap aggregates only a bounded
slice of the data — its row count is exactly (number of sprints in the
last-6 slice) × (number of members in the first-6 slice), hence at most
36 regardless of dataset size, and every row's sprint number comes from
the last-6 sprint slice. -/
theorem heatmap_bounded_spec (sprints : List Sprint) (stories : List Story)
    (team : List TeamMember) :
    ((team_sprint_metrics sprints stories team).length
        = min sprints.length 6 * min team.length 6)
    ∧ (team_sprint_metrics sprints stories team).length ≤ 36
    ∧ (∀ e ∈ team_sprint_metrics sprints stories team,
        e.sprint_number ∈ (sprints.drop (sprints.length - 6)).map
          (fun s => s.sprint_number)) := by
  have hlen : (team_sprint_metrics sprints stories team).length
      = (sprints.drop (sprints.length - 6)).length * (team.take 6).length := by
    unfold team_sprint_metrics
    rw [flatMap_const_length _ _ ((team.take 6).length)]
    intro s _
    rw [length_filterMap_of_isSome]
    · simp
    · intro mid hmid
      obtain ⟨m, hm, rfl⟩ := List.mem_map.mp hmid
      have hmem : m ∈ team := List.mem_of_mem_take hm
      have hsome : (team.find? (fun x => x.member_id == m.member_id)).isSome
          = true :=
        List.find?_isSome.mpr ⟨m, hmem, by simp⟩
      rcases hf : team.find? (fun x => x.member_id == m.member_id)
        with _ | member
      · rw [hf] at hsome
        cases hsome
      · simp only [hf]
        rfl
  have hmin : (team_sprint_metrics sprints stories team).length
      = min sprints.length 6 * min team.length 6 := by
    rw [hlen, List.length_drop, List.length_take]
    congr 1 <;> omega
  refine ⟨hmin, ?_, ?_⟩
  · rw [hmin]
    exact le_trans
      (Nat.mul_le_mul (min_le_right _ _) (min_le_right _ _)) (by norm_num)
  · intro e he
    simp only [team_sprint_metrics, List.mem_flatMap,
      List.mem_filterMap] at he
    obtain ⟨s, hs, mid, hmid, hmatch⟩ := he
    rcases hf : team.find? (fun m => m.member_id == mid) with _ | member
    · rw [hf] at hmatch
      cases hmatch
    · rw [hf] at hmatch
      obtain rfl := Option.some.inj hmatch
      exact List.mem_map.mpr ⟨s, hs, rfl⟩

/-- Witness for C10 at the concrete one-sprint, one-member dataset. -/
theorem heatmap_bounded_spec_witness :
    ((team_sprint_metrics cSprints1 cStories1 cTeam1).length
        = min cSprints1.length 6 * min cTeam1.length 6)
    ∧ (team_sprint_metrics cSprints1 cStories1 cTeam1).length ≤ 36
    ∧ (⟨ firstName "Ana", 1, 50⟩ : HeatEntry).sprint_number
        ∈ (cSprints1.drop (cSprints1.length - 6)).map
            (fun s => s.sprint_number) :=
  ⟨(heatmap_bounded_spec cSprints1 cStories1 cTeam1).1,
    (heatmap_bounded_spec cSprints1 cStories1 cTeam1).2.1,
    (heatmap_bounded_spec cSprints1 cStories1 cTeam1).2.2
      ⟨ firstName "Ana", 1, 50⟩
      (by norm_num [team_sprint_metrics, cSprints1, cStories1, cTeam1,
        HeatEntry.mk.injEq])⟩
